import Mathlib

/-!
# A shallow embedding of `slack_exporter.py`

This file embeds the data-aggregation core of the repository
(`src/slack_exporter.py`) in Lean 4 and proves properties of the embedded
functions.

Modelling conventions:
* Python `Optional[str]` values become `Option String`; Python truthiness of
  such a value (`if not x`) is the predicate `truthy` below (both `None` and
  the empty string are falsy).
* Python dicts (which preserve insertion order) become association lists
  `Dict α := List (String × α)` with insertion-order preserving `dinsert`.
* The remote Slack service is modelled at two levels.  For the retry loop
  `_request_json` itself, the network is a function `Nat → HttpResponse α`
  giving the response to each successive attempt.  For the export pipeline,
  each endpoint call made by `export_channel_metrics_rows` is an oracle field
  of `ApiEnv` whose value is the outcome (`Except PyExn …`) that the
  corresponding `_request_json` call delivers; the two call sites of
  `conversations.info` get separate oracle fields because the remote service
  may answer each live call differently.
* Python exceptions become the closed error type `PyExn`:
  `slackApiError` for `SlackApiError`, `httpStatusError` for the
  `requests.HTTPError` raised by `resp.raise_for_status()`, and `valueError`
  for the `ValueError` raised by `float()` on an unparsable string.
* Python `float()` is modelled exactly over the rationals by `pyFloat`,
  covering the numeric-literal grammar `[+|-] digits [. digits] [e/E [+|-]
  digits]` that includes every Slack fractional-epoch timestamp.  Strings with
  embedded whitespace or underscores and the words inf/infinity/nan are
  outside the modelled grammar.  On the covered grammar the exact rational
  value agrees with IEEE-754 evaluation for all comparisons and truncations
  appearing in the claims about Slack timestamps.
-/

namespace SlackExporter

/-- Python truthiness of an `Optional[str]`: `None` and `""` are falsy. -/
def truthy : Option String → Bool
  | none => false
  | some s => !(s == "")

/-- Python `a or b` on two `Optional[str]` values: `b` when `a` is falsy. -/
def pyOr (a b : Option String) : Option String :=
  if truthy a then a else b

/-- The closed error type for the exceptions the source can raise. -/
inductive PyExn where
  /-- `SlackApiError(msg)` as raised by `_request_json`. -/
  | slackApiError (msg : String)
  /-- `requests.HTTPError` from `resp.raise_for_status()`. -/
  | httpStatusError
  /-- `ValueError` from `float()` on an unparsable string. -/
  | valueError
deriving DecidableEq, Repr

/-! ## Python dicts as insertion-ordered association lists -/

/-- A Python dict with string keys: an association list in insertion order. -/
abbrev Dict (α : Type) := List (String × α)

/-- `m.get(k)`. -/
def dlookup {α : Type} : Dict α → String → Option α
  | [], _ => none
  | (k', v) :: rest, k => if k' = k then some v else dlookup rest k

/-- `m[k] = v`: replace in place if the key exists, else append
(Python dicts keep insertion order). -/
def dinsert {α : Type} : Dict α → String → α → Dict α
  | [], k, v => [(k, v)]
  | (k', v') :: rest, k, v =>
      if k' = k then (k, v) :: rest else (k', v') :: dinsert rest k v

/-- `m.keys()` in insertion order. -/
def dkeys {α : Type} (m : Dict α) : List String := m.map Prod.fst

theorem dlookup_dinsert {α : Type} (m : Dict α) (k : String) (v : α) (k' : String) :
    dlookup (dinsert m k v) k' = if k = k' then some v else dlookup m k' := by
  induction m with
  | nil => simp [dinsert, dlookup]
  | cons p rest ih =>
      obtain ⟨pk, pv⟩ := p
      by_cases hpk : pk = k
      · subst hpk
        by_cases hk' : pk = k'
        · subst hk'; simp [dinsert, dlookup]
        · simp [dinsert, dlookup, hk']
      · by_cases hk' : pk = k'
        · subst hk'
          have : k ≠ pk := fun h => hpk h.symm
          simp [dinsert, dlookup, hpk, this]
        · simp [dinsert, dlookup, hpk, hk', ih]

theorem dlookup_eq_none_of_not_mem_dkeys {α : Type} (m : Dict α) (k : String)
    (h : k ∉ dkeys m) : dlookup m k = none := by
  induction m with
  | nil => simp [dlookup]
  | cons p rest ih =>
      obtain ⟨pk, pv⟩ := p
      simp only [dkeys, List.map_cons, List.mem_cons] at h
      push_neg at h
      have hne : pk ≠ k := fun hh => h.1 hh.symm
      simpa [dlookup, hne] using ih (by simpa [dkeys] using h.2)

/-! ## Deduplication preserving first-seen order

`get_channel_member_ids` collects the `members` arrays of all pages and then
walks them once with a `seen` set, appending each ID the first time it is
seen.  `dedupFirstSeenLoop` is that loop (the `seen` set is carried as a
list; only membership is ever queried). -/

def dedupFirstSeenLoop : List String → List String → List String
  | [], _ => []
  | uid :: rest, seen =>
      if uid ∈ seen then dedupFirstSeenLoop rest seen
      else uid :: dedupFirstSeenLoop rest (uid :: seen)

/-- Specification-side description of first-seen deduplication: keep the head,
drop all of its later occurrences, recurse. -/
def firstOccurrenceOrder (l : List String) : List String :=
  match l with
  | [] => []
  | x :: xs => x :: firstOccurrenceOrder (xs.filter (fun y => y ≠ x))
termination_by l.length
decreasing_by
  simp only [List.length_cons]
  exact Nat.lt_succ_of_le (List.length_filter_le _ _)

theorem mem_dedupFirstSeenLoop (l : List String) :
    ∀ seen x, x ∈ dedupFirstSeenLoop l seen ↔ (x ∈ l ∧ x ∉ seen) := by
  induction l with
  | nil => intro seen x; simp [dedupFirstSeenLoop]
  | cons a rest ih =>
      intro seen x
      by_cases ha : a ∈ seen
      · simp only [dedupFirstSeenLoop, if_pos ha]
        rw [ih seen x]
        constructor
        · rintro ⟨hx, hxs⟩
          exact ⟨List.mem_cons_of_mem _ hx, hxs⟩
        · rintro ⟨hx, hxs⟩
          rcases List.mem_cons.mp hx with h | h
          · exact absurd (h ▸ ha) hxs
          · exact ⟨h, hxs⟩
      · simp only [dedupFirstSeenLoop, if_neg ha]
        constructor
        · intro hx
          rcases List.mem_cons.mp hx with h | h
          · exact ⟨h ▸ List.mem_cons_self _ _, h ▸ ha⟩
          · rcases (ih _ x).mp h with ⟨h1, h2⟩
            refine ⟨List.mem_cons_of_mem _ h1, fun hs => h2 ?_⟩
            exact List.mem_cons_of_mem _ hs
        · rintro ⟨hx, hxs⟩
          rcases List.mem_cons.mp hx with h | h
          · exact h ▸ List.mem_cons_self _ _
          · by_cases hxa : x = a
            · exact hxa ▸ List.mem_cons_self _ _
            · refine List.mem_cons_of_mem _ ((ih _ x).mpr ⟨h, ?_⟩)
              intro hs
              rcases List.mem_cons.mp hs with h' | h'
              · exact hxa h'
              · exact hxs h'

theorem nodup_dedupFirstSeenLoop (l : List String) :
    ∀ seen, (dedupFirstSeenLoop l seen).Nodup := by
  induction l with
  | nil => intro seen; simp [dedupFirstSeenLoop]
  | cons a rest ih =>
      intro seen
      by_cases ha : a ∈ seen
      · simpa [dedupFirstSeenLoop, if_pos ha] using ih seen
      · simp only [dedupFirstSeenLoop, if_neg ha]
        refine List.nodup_cons.mpr ⟨?_, ih _⟩
        intro hmem
        exact ((mem_dedupFirstSeenLoop rest _ a).mp hmem).2 (List.mem_cons_self _ _)

theorem dedupFirstSeenLoop_eq_firstOccurrenceOrder (l : List String) :
    ∀ seen, dedupFirstSeenLoop l seen =
      firstOccurrenceOrder (l.filter (fun x => x ∉ seen)) := by
  induction l with
  | nil => intro seen; simp [dedupFirstSeenLoop, firstOccurrenceOrder]
  | cons a rest ih =>
      intro seen
      by_cases ha : a ∈ seen
      · simp only [dedupFirstSeenLoop, if_pos ha]
        rw [ih seen]
        congr 1
        simp [List.filter_cons, ha]
      · simp only [dedupFirstSeenLoop, if_neg ha]
        rw [ih (a :: seen)]
        have hfil : List.filter (fun x => decide (x ∉ seen)) (a :: rest) =
            a :: rest.filter (fun x => decide (x ∉ seen)) := by
          simp [List.filter_cons, ha]
        rw [hfil, firstOccurrenceOrder]
        congr 1
        rw [List.filter_filter]
        congr 1
        apply List.filter_congr
        intro x _
        by_cases hxa : x = a
        · subst hxa; simp
        · by_cases hxs : x ∈ seen <;> simp [hxs, hxa]

/-! ## The API client retry loop `_request_json`

The network is a function from attempt number to HTTP response.  The loop
returns the Python function's outcome together with the sleeps it performed
and the number of attempts it consumed, so that the retry/backoff behaviour
can be stated. -/

/-- One HTTP response as `_request_json` inspects it: a 429 (with the integer
value of the `Retry-After` header, when present), some other non-2xx status
(on which `resp.raise_for_status()` raises), or a 200 body with its `ok` flag,
optional `error` code and payload. -/
inductive HttpResponse (α : Type) where
  | rateLimited (retryAfter : Option Int)
  | httpError
  | body (ok : Bool) (error : Option String) (data : α)

/-- Why the loop slept: an HTTP 429, or linear backoff after a transient
in-body error code. -/
inductive SleepCause where
  | rateLimit
  | backoff
deriving DecidableEq, Repr

/-- One `time.sleep` performed by the loop: at which attempt, how long, why. -/
structure SleepEvent where
  attempt : Nat
  duration : Int
  cause : SleepCause
deriving DecidableEq, Repr

/-- The observable outcome of `_request_json`: the returned body or raised
exception, the sleeps performed, and the number of loop iterations used. -/
structure RequestOutcome (α : Type) where
  result : Except PyExn α
  sleeps : List SleepEvent
  attemptsUsed : Nat

/-- The body of `for attempt in range(max_retries)` in `_request_json`,
recursing on the number of remaining iterations.  Falling out of the loop
raises `SlackApiError(f"{endpoint} failed after retries (rate limited)")`. -/
def requestLoop {α : Type} (endpoint : String) (responses : Nat → HttpResponse α)
    (maxRetries : Nat) : Nat → Nat → RequestOutcome α
  | 0, _ =>
      ⟨.error (.slackApiError (endpoint ++ " failed after retries (rate limited)")), [], 0⟩
  | remaining + 1, attempt =>
      match responses attempt with
      | .rateLimited retryAfter =>
          let d : Int := max 1 (retryAfter.getD 1)
          let o := requestLoop endpoint responses maxRetries remaining (attempt + 1)
          ⟨o.result, ⟨attempt, d, .rateLimit⟩ :: o.sleeps, o.attemptsUsed + 1⟩
      | .httpError => ⟨.error .httpStatusError, [], 1⟩
      | .body ok err data =>
          if ok then ⟨.ok data, [], 1⟩
          else
            let e := err.getD "unknown_error"
            if (e = "internal_error" ∨ e = "ratelimited") ∧ attempt < maxRetries - 1 then
              let o := requestLoop endpoint responses maxRetries remaining (attempt + 1)
              ⟨o.result, ⟨attempt, 1 + (attempt : Int), .backoff⟩ :: o.sleeps, o.attemptsUsed + 1⟩
            else ⟨.error (.slackApiError (endpoint ++ " failed: " ++ e)), [], 1⟩

/-- `_request_json(token, endpoint, params, max_retries=8)`.  The token and
params are absorbed into `responses`; the loop runs at most `maxRetries`
iterations starting from attempt 0. -/
def _request_json {α : Type} (endpoint : String) (responses : Nat → HttpResponse α)
    (maxRetries : Nat := 8) : RequestOutcome α :=
  requestLoop endpoint responses maxRetries maxRetries 0

/-! ## Python `float()` and timestamp conversion -/

/-- Base-10 value of a digit string. -/
def digitsVal : List Char → Nat
  | [] => 0
  | c :: cs => (c.toNat - 48) * 10 ^ cs.length + digitsVal cs

/-- Exact rational semantics of Python `float(s)` on the numeric-literal
grammar `[+|-] digits [. digits] [(e|E) [+|-] digits]` (at least one mantissa
digit required), which contains every Slack fractional-epoch timestamp.
`none` models the `ValueError` that `float` raises on anything else.  Forms
Python additionally accepts (surrounding whitespace, `_` digit separators,
`inf`, `infinity`, `nan`) are outside the modelled grammar. -/
def pyFloatCore (cs : List Char) : Option Rat :=
  let (neg, cs0) :=
    match cs with
    | [] => (false, ([] : List Char))
    | c :: r => if c = '-' then (true, r) else if c = '+' then (false, r) else (false, c :: r)
  let ip := cs0.takeWhile Char.isDigit
  let cs1 := cs0.dropWhile Char.isDigit
  let (fp, cs2) :=
    match cs1 with
    | [] => (([] : List Char), ([] : List Char))
    | c :: r => if c = '.' then (r.takeWhile Char.isDigit, r.dropWhile Char.isDigit)
                else ([], c :: r)
  if ip.isEmpty && fp.isEmpty then none
  else
    let n : Int := (digitsVal ip : Int) * (10 : Int) ^ fp.length + (digitsVal fp : Int)
    let sn : Int := if neg then -n else n
    let d : Int := (10 : Int) ^ fp.length
    match cs2 with
    | [] => some (Rat.divInt sn d)
    | e :: r =>
        if e = 'e' ∨ e = 'E' then
          let (eneg, r1) :=
            match r with
            | [] => (false, ([] : List Char))
            | c :: rr => if c = '-' then (true, rr) else if c = '+' then (false, rr)
                         else (false, c :: rr)
          let ed := r1.takeWhile Char.isDigit
          let r2 := r1.dropWhile Char.isDigit
          if ed.isEmpty || !r2.isEmpty then none
          else some (if eneg then Rat.divInt sn (d * (10 : Int) ^ digitsVal ed)
                     else Rat.divInt (sn * (10 : Int) ^ digitsVal ed) d)
        else none

/-- `float(s)` as an exact rational, `none` for `ValueError`. -/
def pyFloat (s : String) : Option Rat := pyFloatCore s.data

/-- Python `int()` applied to a real value: truncation toward zero. -/
def ratTrunc (q : Rat) : Int := q.num.tdiv q.den

/-- `slack_ts_to_unix_seconds`: `""` for a falsy input, else
`str(int(float(ts)))`, with the `ValueError` of an unparsable string caught
and rendered as `""`. -/
def slack_ts_to_unix_seconds : Option String → String
  | none => ""
  | some s =>
      if s = "" then ""
      else
        match pyFloat s with
        | some q => toString (ratTrunc q)
        | none => ""

/-! ## History messages and `compute_channel_stats_from_history` -/

/-- One message of `conversations.history` as the scanner reads it. -/
structure Message where
  type : Option String
  user : Option String
  ts : Option String
  subtype : Option String
deriving DecidableEq, Repr

/-- `_is_countable_user_message`: `type == "message"`, truthy user, and the
`subtype` key exactly absent (an empty-string subtype is not `None`). -/
def _is_countable_user_message (msg : Message) : Bool :=
  (msg.type == some "message") && truthy msg.user && msg.subtype.isNone

/-- `JOIN_SUBTYPES = {"channel_join", "group_join"}`. -/
def JOIN_SUBTYPES : List String := ["channel_join", "group_join"]

/-- The body of the scan loop of `compute_channel_stats_from_history` for one
message: skip a falsy user id; count a countable message; merge a join event
into `join_ts`, comparing `float(ts) > float(prev)` and raising `ValueError`
when either string fails to parse. -/
def statsStep (acc : Dict Nat × Dict String) (msg : Message) :
    Except PyExn (Dict Nat × Dict String) :=
  match msg.user with
  | none => .ok acc
  | some uid =>
      if uid = "" then .ok acc
      else
        let msg_counts :=
          if _is_countable_user_message msg then
            dinsert acc.1 uid ((dlookup acc.1 uid).getD 0 + 1)
          else acc.1
        if (msg.subtype = some "channel_join" ∨ msg.subtype = some "group_join")
            ∧ truthy msg.ts then
          match msg.ts with
          | some ts =>
              match dlookup acc.2 uid with
              | none => .ok (msg_counts, dinsert acc.2 uid ts)
              | some prev =>
                  match pyFloat ts, pyFloat prev with
                  | some a, some b =>
                      .ok (msg_counts, if a > b then dinsert acc.2 uid ts else acc.2)
                  | _, _ => .error .valueError
          | none => .ok (msg_counts, acc.2)
        else .ok (msg_counts, acc.2)

/-- The scan loop over the whole history stream. -/
def statsFold : List Message → Dict Nat × Dict String →
    Except PyExn (Dict Nat × Dict String)
  | [], acc => .ok acc
  | msg :: rest, acc =>
      match statsStep acc msg with
      | .ok acc' => statsFold rest acc'
      | .error e => .error e

/-- `compute_channel_stats_from_history`, with the iterator over
`conversations.history` pages already joined into one message list. -/
def compute_channel_stats_from_history (messages : List Message) :
    Except PyExn (Dict Nat × Dict String) :=
  statsFold messages ([], [])

/-! ## User records, the directory and roles -/

/-- One `user` object as the exporter reads it: the fields of `u` and
`u["profile"]` that are inspected, plus the admin flags read by
`get_user_role`.  The boolean fields are the Python `bool(...)` of the raw
values. -/
structure UserRec where
  id : Option String
  profile_email : Option String
  real_name : Option String
  profile_real_name : Option String
  profile_display_name : Option String
  name : Option String
  deleted : Bool
  is_bot : Bool
  is_admin : Bool
  is_owner : Bool
  is_primary_owner : Bool
deriving DecidableEq, Repr

/-- A `user` object with every field absent, as produced by
`data.get("user") or {}` on a response without a `user` key. -/
def noUser : UserRec :=
  ⟨none, none, none, none, none, none, false, false, false, false, false⟩

/-- The identity tuple `(email, real_name, display_name, deleted, is_bot)`
that `build_user_email_map` stores and `fetch_user_info` returns. -/
structure UserInfo where
  email : Option String
  real_name : Option String
  display_name : Option String
  deleted : Bool
  is_bot : Bool
deriving DecidableEq, Repr

/-- The shared extraction `email = profile.get("email")`,
`real_name = u.get("real_name") or profile.get("real_name")`,
`display_name = profile.get("display_name") or u.get("name")`. -/
def userInfoOfRec (u : UserRec) : UserInfo :=
  { email := u.profile_email
    real_name := pyOr u.real_name u.profile_real_name
    display_name := pyOr u.profile_display_name u.name
    deleted := u.deleted
    is_bot := u.is_bot }

/-- `build_user_email_map`, over the `members` arrays of the `users.list`
pages: entries with a falsy `id` are skipped, later pages overwrite earlier
entries for the same ID. -/
def build_user_email_map (pages : List (List UserRec)) : Dict UserInfo :=
  pages.flatten.foldl
    (fun m u =>
      match u.id with
      | none => m
      | some uid => if uid = "" then m else dinsert m uid (userInfoOfRec u))
    []

/-- `get_user_role(token, user_id, channel_creator_id)`: the `users.info`
lookup is guarded by `except Exception: pass`, so a failed lookup means
"not admin"; then the creator comparison, then `"Member"`. -/
def get_user_role (usersInfo : String → Except PyExn UserRec)
    (user_id : String) (channel_creator_id : Option String) : String :=
  let isAdmin :=
    match usersInfo user_id with
    | .ok u => u.is_admin || u.is_owner || u.is_primary_owner
    | .error _ => false
  if isAdmin then "Workspace Admin"
  else
    match channel_creator_id with
    | some c => if c ≠ "" ∧ user_id = c then "Channel Creator" else "Member"
    | none => "Member"

/-- `get_channel_member_ids`: collect the `members` arrays of all pages, then
deduplicate preserving first-seen order with a `seen` set. -/
def get_channel_member_ids (pages : List (List String)) : List String :=
  dedupFirstSeenLoop pages.flatten []

/-! ## The environment of one export invocation

Each field is the outcome that the corresponding `_request_json` call (or
call sequence, for a paginated endpoint) delivers to
`export_channel_metrics_rows`.  A paginated endpoint either fails as a whole
(the page loop re-raises and all partial state is discarded) or yields its
page list. `conversations.info` is called twice — once directly at the top of
the export and once inside `get_channel_creator` — and the two live calls get
independent outcomes.  `setIter` models the unspecified iteration order of
the Python `set` built for `discovered_ids`: theorems assume only
`SetIterOk`. -/
structure ApiEnv where
  /-- Outcome of `auth_test(token)` (payload unused). -/
  authTest : Except PyExn Unit
  /-- Outcome of the direct `conversations_info` call whose result is bound to
  `channel_info_data` (and never used): the `channel.creator` field. -/
  convInfoMain : Except PyExn (Option String)
  /-- Outcome of the `conversations_info` call inside `get_channel_creator`:
  the `channel.creator` field, `none` when `channel` or `creator` is absent. -/
  convInfoCreator : Except PyExn (Option String)
  /-- Pages of `conversations.members`. -/
  memberPages : Except PyExn (List (List String))
  /-- Pages of `users.list`. -/
  usersListPages : Except PyExn (List (List UserRec))
  /-- Pages of `conversations.history`. -/
  historyPages : Except PyExn (List (List Message))
  /-- Outcome of `users.info` for a given user ID (deterministic per ID
  within one export). -/
  usersInfo : String → Except PyExn UserRec
  /-- Iteration order of a Python `set` built from the given list. -/
  setIter : List String → List String

/-- A faithful `set` iteration: lists exactly the distinct elements. -/
def SetIterOk (f : List String → List String) : Prop :=
  ∀ l, (f l).Nodup ∧ ∀ x, x ∈ f l ↔ x ∈ l

/-- `get_channel_creator`: `except Exception: return None`. -/
def get_channel_creator (env : ApiEnv) : Option String :=
  match env.convInfoCreator with
  | .ok creator => creator
  | .error _ => none

/-! ## The aggregation pipeline of `export_channel_metrics_rows` -/

/-- One output row (all fields already rendered to strings, as in the dicts
the Python function builds). -/
structure ExportRow where
  user_id : String
  email : String
  display_name : String
  real_name : String
  role : String
  message_count : String
  joined_at : String
deriving DecidableEq, Repr

/-- The row dict built for one user: `email or ""` etc., the live role
lookup, `str(msg_counts.get(uid, 0))` and
`slack_ts_to_unix_seconds(join_ts.get(uid))`. -/
def mkRow (env : ApiEnv) (creator : Option String) (msg_counts : Dict Nat)
    (join_ts : Dict String) (uid : String) (info : UserInfo) : ExportRow :=
  { user_id := uid
    email := info.email.getD ""
    display_name := info.display_name.getD ""
    real_name := info.real_name.getD ""
    role := get_user_role env.usersInfo uid creator
    message_count := toString ((dlookup msg_counts uid).getD 0)
    joined_at := slack_ts_to_unix_seconds (dlookup join_ts uid) }

/-- The first pass over `ordered_ids`: users present in the directory are
filtered and emitted, users absent from it are deferred to `missing_ids`. -/
def firstPass (env : ApiEnv) (include_bots include_deactivated : Bool)
    (creator : Option String) (user_map : Dict UserInfo)
    (msg_counts : Dict Nat) (join_ts : Dict String) :
    List String → List ExportRow × List String
  | [] => ([], [])
  | uid :: rest =>
      let acc := firstPass env include_bots include_deactivated creator user_map
        msg_counts join_ts rest
      match dlookup user_map uid with
      | none => (acc.1, uid :: acc.2)
      | some info =>
          if info.deleted && !include_deactivated then acc
          else if info.is_bot && !include_bots then acc
          else (mkRow env creator msg_counts join_ts uid info :: acc.1, acc.2)

/-- The second pass over `missing_ids`: `fetch_user_info` per ID, with
`except SlackApiError: continue`; any other exception propagates. -/
def secondPass (env : ApiEnv) (include_bots include_deactivated : Bool)
    (creator : Option String) (msg_counts : Dict Nat) (join_ts : Dict String) :
    List String → Except PyExn (List ExportRow)
  | [] => .ok []
  | uid :: rest =>
      match env.usersInfo uid with
      | .error (.slackApiError _) =>
          secondPass env include_bots include_deactivated creator msg_counts join_ts rest
      | .error e => .error e
      | .ok u =>
          let info := userInfoOfRec u
          if info.deleted && !include_deactivated then
            secondPass env include_bots include_deactivated creator msg_counts join_ts rest
          else if info.is_bot && !include_bots then
            secondPass env include_bots include_deactivated creator msg_counts join_ts rest
          else
            (secondPass env include_bots include_deactivated creator msg_counts join_ts
              rest).map
              (fun rows => mkRow env creator msg_counts join_ts uid info :: rows)

/-- The history step of the export: scan when `scan_history`, else both maps
empty. -/
def historyStats (env : ApiEnv) (scan_history : Bool) :
    Except PyExn (Dict Nat × Dict String) :=
  if scan_history then
    env.historyPages.bind fun hpages => compute_channel_stats_from_history hpages.flatten
  else .ok ([], [])

/-- The pure tail of the export after all bulk data is in hand: candidate set,
ordering, two emission passes. -/
def aggregateRows (env : ApiEnv) (include_bots include_deactivated : Bool)
    (creator : Option String) (member_ids : List String) (user_map : Dict UserInfo)
    (msg_counts : Dict Nat) (join_ts : Dict String) : Except PyExn (List ExportRow) :=
  let discovered_ids := env.setIter (member_ids ++ dkeys msg_counts ++ dkeys join_ts)
  let ordered_ids := dedupFirstSeenLoop (member_ids ++ discovered_ids) []
  let fp := firstPass env include_bots include_deactivated creator user_map
    msg_counts join_ts ordered_ids
  (secondPass env include_bots include_deactivated creator msg_counts join_ts fp.2).map
    (fun rows2 => fp.1 ++ rows2)

/-- `export_channel_metrics_rows`.  The token/channel normalisation
(`clean_token`, `clean_channel_id`) is absorbed into the oracles of `env`.
The call order follows the source: `auth_test`, the direct
`conversations_info` (result unused), `get_channel_creator`, membership,
directory, optional history scan, then the two emission passes. -/
def export_channel_metrics_rows (env : ApiEnv)
    (include_bots include_deactivated scan_history : Bool) :
    Except PyExn (List ExportRow) :=
  env.authTest.bind fun _ =>
  env.convInfoMain.bind fun _ =>
  let creator := get_channel_creator env
  env.memberPages.bind fun mpages =>
  let member_ids := get_channel_member_ids mpages
  env.usersListPages.bind fun upages =>
  let user_map := build_user_email_map upages
  (historyStats env scan_history).bind fun stats =>
  aggregateRows env include_bots include_deactivated creator member_ids user_map
    stats.1 stats.2

/-! ## The CSV encoder `rows_to_csv_bytes` -/

/-- The double-quote character (written via its code point to keep source
strings simple). -/
def dq : Char := Char.ofNat 34

/-- `csv.writer` with default dialect quotes a field that contains the
delimiter, the quote character, CR or LF. -/
def csvNeedsQuote (s : String) : Bool :=
  s.data.any fun c => c == ',' || c == dq || c == '\r' || c == '\n'

/-- Double every quote character of the field. -/
def csvEscape (s : String) : String :=
  ⟨s.data.foldr (fun c acc => if c == dq then dq :: dq :: acc else c :: acc) []⟩

/-- Render one field, quoting when needed. -/
def csvField (s : String) : String :=
  if csvNeedsQuote s then ⟨[dq]⟩ ++ csvEscape s ++ ⟨[dq]⟩ else s

/-- One CSV record: comma-joined fields plus the default `\r\n` terminator. -/
def csvRecordLine (fields : List String) : String :=
  String.intercalate "," (fields.map csvField) ++ "\r\n"

/-- The fixed column schema of the writer. -/
def CSV_FIELDNAMES : List String :=
  ["user_id", "email", "display_name", "real_name", "role", "message_count", "joined_at"]

/-- `rows_to_csv_bytes`: header row, then per input row the projection
`row.get(k, "") for k in fieldnames`, accumulated into one buffer.  The
UTF-8 encoding step is the identity on this model (a Lean `String` is its
UTF-8 byte content). -/
def rows_to_csv_bytes (rows : List (Dict String)) : String :=
  rows.foldl
    (fun buf row =>
      buf ++ csvRecordLine (CSV_FIELDNAMES.map fun k => (dlookup row k).getD ""))
    (csvRecordLine CSV_FIELDNAMES)

/-! ## Characterising the history scan -/

/-- Numeric value of a timestamp string (0 when unparsable; the lemmas using
it always carry parsability hypotheses). -/
def ratVal (s : String) : Rat := (pyFloat s).getD 0

/-- A message processed by the join branch of the scan: join subtype, truthy
timestamp, truthy user. -/
def isJoinEvent (m : Message) : Bool :=
  ((m.subtype == some "channel_join") || (m.subtype == some "group_join"))
    && truthy m.ts && truthy m.user

/-- The timestamps of user `u`'s join events, in scan order. -/
def joinTsList (msgs : List Message) (u : String) : List String :=
  (msgs.filter fun m => isJoinEvent m && (m.user == some u)).filterMap (fun m => m.ts)

/-- The number of countable messages of user `u`. -/
def countableCount (msgs : List Message) (u : String) : Nat :=
  (msgs.filter fun m => _is_countable_user_message m && (m.user == some u)).length

/-- The merge rule the scan applies for one join timestamp: keep the first
value, replace it only on a numerically strictly greater one. -/
def joinMergeStep (prev : Option String) (t : String) : Option String :=
  match prev with
  | none => some t
  | some pv => if ratVal t > ratVal pv then some t else some pv

/-- The merge rule folded over a list of join timestamps. -/
def joinMerge (prev : Option String) (evs : List String) : Option String :=
  evs.foldl joinMergeStep prev

theorem joinMerge_eq_none (evs : List String) :
    ∀ prev, joinMerge prev evs = none ↔ (prev = none ∧ evs = []) := by
  induction evs with
  | nil => intro prev; simp [joinMerge]
  | cons t rest ih =>
      intro prev
      have : joinMerge prev (t :: rest) = joinMerge (joinMergeStep prev t) rest := rfl
      rw [this, ih]
      constructor
      · rintro ⟨h1, h2⟩
        cases prev with
        | none => simp [joinMergeStep] at h1
        | some pv =>
            exfalso
            by_cases hgt : ratVal t > ratVal pv <;> simp [joinMergeStep, hgt] at h1
      · rintro ⟨_, h⟩
        cases h

theorem joinMerge_max (evs : List String) :
    ∀ prev t, joinMerge prev evs = some t →
      (t ∈ evs ∨ prev = some t) ∧
      (∀ s ∈ evs, ratVal s ≤ ratVal t) ∧
      (∀ pv, prev = some pv → ratVal pv ≤ ratVal t) := by
  induction evs with
  | nil =>
      intro prev t h
      refine ⟨Or.inr h, by simp, fun pv hpv => ?_⟩
      rw [hpv] at h
      cases h
      exact le_refl _
  | cons s rest ih =>
      intro prev t h
      have hstep : joinMerge prev (s :: rest) = joinMerge (joinMergeStep prev s) rest := rfl
      rw [hstep] at h
      obtain ⟨hmem, hall, hprev⟩ := ih _ t h
      have hs_le : ratVal s ≤ ratVal t := by
        cases prev with
        | none => exact hprev s rfl
        | some pv =>
            by_cases hgt : ratVal s > ratVal pv
            · exact hprev s (by simp [joinMergeStep, hgt])
            · exact le_trans (not_lt.mp hgt) (hprev pv (by simp [joinMergeStep, hgt]))
      refine ⟨?_, ?_, ?_⟩
      · rcases hmem with h' | h'
        · exact Or.inl (List.mem_cons_of_mem _ h')
        · cases prev with
          | none =>
              simp [joinMergeStep] at h'
              exact Or.inl (h' ▸ List.mem_cons_self _ _)
          | some pv =>
              by_cases hgt : ratVal s > ratVal pv
              · simp [joinMergeStep, hgt] at h'
                exact Or.inl (h' ▸ List.mem_cons_self _ _)
              · simp [joinMergeStep, hgt] at h'
                exact Or.inr (by rw [h'])
      · intro x hx
        rcases List.mem_cons.mp hx with h' | h'
        · exact h' ▸ hs_le
        · exact hall x h'
      · intro pv hpv
        subst hpv
        by_cases hgt : ratVal s > ratVal pv
        · have h1 : joinMergeStep (some pv) s = some s := by simp [joinMergeStep, hgt]
          exact le_trans (le_of_lt hgt) (hprev s h1)
        · have h1 : joinMergeStep (some pv) s = some pv := by simp [joinMergeStep, hgt]
          exact hprev pv h1

/-- Master characterisation of the scan loop: when every join-event timestamp
parses and every timestamp already stored in the accumulator parses, the scan
succeeds, the counts accumulate exactly the countable messages, and the join
map is the strict-greater merge of the join timestamps over the accumulator. -/
theorem statsFold_char (msgs : List Message) :
    ∀ acc : Dict Nat × Dict String,
    (∀ m ∈ msgs, isJoinEvent m = true → (pyFloat (m.ts.getD "")).isSome = true) →
    (∀ u t, dlookup acc.2 u = some t → (pyFloat t).isSome = true) →
    ∃ counts joins, statsFold msgs acc = .ok (counts, joins) ∧
      (∀ u, (dlookup counts u).getD 0 = (dlookup acc.1 u).getD 0 + countableCount msgs u) ∧
      (∀ u, dlookup joins u = joinMerge (dlookup acc.2 u) (joinTsList msgs u)) ∧
      (∀ u t, dlookup joins u = some t → (pyFloat t).isSome = true) := by
  induction msgs with
  | nil =>
      intro acc _ hacc
      exact ⟨acc.1, acc.2, rfl, fun u => by simp [countableCount],
        fun u => by simp [joinTsList, joinMerge], hacc⟩
  | cons m rest ih =>
      intro acc hparse hacc
      have hparse' : ∀ m' ∈ rest, isJoinEvent m' = true →
          (pyFloat (m'.ts.getD "")).isSome = true :=
        fun m' hm' => hparse m' (List.mem_cons_of_mem _ hm')
      -- the three shapes of `statsStep acc m`
      rcases hu : m.user with _ | uid
      · -- user key absent: the message is skipped entirely
        have hstep : statsStep acc m = .ok acc := by
          simp [statsStep, hu]
        obtain ⟨counts, joins, h1, h2, h3, h4⟩ := ih acc hparse' hacc
        refine ⟨counts, joins, ?_, ?_, ?_, h4⟩
        · simpa [statsFold, hstep] using h1
        · intro u
          have : countableCount (m :: rest) u = countableCount rest u := by
            simp [countableCount, List.filter_cons, _is_countable_user_message, truthy, hu]
          rw [this]; exact h2 u
        · intro u
          have : joinTsList (m :: rest) u = joinTsList rest u := by
            simp [joinTsList, List.filter_cons, isJoinEvent, truthy, hu]
          rw [this]; exact h3 u
      · by_cases huid : uid = ""
        · -- falsy user id: skipped entirely
          subst huid
          have hstep : statsStep acc m = .ok acc := by
            simp [statsStep, hu]
          obtain ⟨counts, joins, h1, h2, h3, h4⟩ := ih acc hparse' hacc
          refine ⟨counts, joins, ?_, ?_, ?_, h4⟩
          · simpa [statsFold, hstep] using h1
          · intro u
            have : countableCount (m :: rest) u = countableCount rest u := by
              simp [countableCount, List.filter_cons, _is_countable_user_message, truthy, hu]
            rw [this]; exact h2 u
          · intro u
            have : joinTsList (m :: rest) u = joinTsList rest u := by
              simp [joinTsList, List.filter_cons, isJoinEvent, truthy, hu]
            rw [this]; exact h3 u
        · -- truthy user id
          have htr : truthy m.user = true := by simp [truthy, hu, huid]
          -- the counts component after this message
          set cnts' := (if _is_countable_user_message m then
              dinsert acc.1 uid ((dlookup acc.1 uid).getD 0 + 1)
            else acc.1) with hcnts'
          have hcount_step : ∀ u, (dlookup cnts' u).getD 0 =
              (dlookup acc.1 u).getD 0 +
                (if _is_countable_user_message m && (m.user == some u) then 1 else 0) := by
            intro u
            by_cases hc : _is_countable_user_message m
            · rw [hcnts']
              by_cases huu : uid = u
              · subst huu
                simp [hc, dlookup_dinsert, hu, Nat.add_comm]
              · have : (m.user == some u) = false := by simp [hu, huu]
                simp [hc, dlookup_dinsert, huu, this]
            · have : (_is_countable_user_message m && (m.user == some u)) = false := by
                simp [hc]
              simp [hcnts', hc, this]
          have hcount_cons : ∀ u, countableCount (m :: rest) u =
              (if _is_countable_user_message m && (m.user == some u) then 1 else 0) +
                countableCount rest u := by
            intro u
            by_cases hcu : (_is_countable_user_message m && (m.user == some u)) = true
            · simp [countableCount, List.filter_cons, hcu, Nat.add_comm]
            · simp only [Bool.not_eq_true] at hcu
              simp [countableCount, List.filter_cons, hcu]
          by_cases hjoin : (m.subtype = some "channel_join" ∨ m.subtype = some "group_join")
              ∧ truthy m.ts
          · -- join branch taken
            have hsub := hjoin.1
            have hts := hjoin.2
            rcases hts' : m.ts with _ | t
            · rw [hts'] at hts; simp [truthy] at hts
            · have hje : isJoinEvent m = true := by
                rcases hsub with h | h <;> simp [isJoinEvent, h, hts, htr]
              have hpt : (pyFloat t).isSome = true := by
                have := hparse m (List.mem_cons_self _ _) hje
                simpa [hts'] using this
              have hjoin_cons : ∀ u, joinTsList (m :: rest) u =
                  if uid = u then t :: joinTsList rest u else joinTsList rest u := by
                intro u
                by_cases huu : uid = u
                · subst huu
                  have : (isJoinEvent m && (m.user == some uid)) = true := by
                    simp [hje, hu]
                  simp [joinTsList, List.filter_cons, this, List.filterMap_cons, hts']
                · have : (isJoinEvent m && (m.user == some u)) = false := by
                    simp [hu, huu]
                  simp [joinTsList, List.filter_cons, this, huu]
              -- the join map after this message, and the step equation
              rcases hprev : dlookup acc.2 uid with _ | prev
              · -- no previous value: store unconditionally
                have hstep : statsStep acc m =
                    .ok (cnts', dinsert acc.2 uid t) := by
                  simp only [statsStep, hu]
                  rw [if_neg huid, if_pos hjoin]
                  simp [hts', hprev, hcnts']
                have hacc2' : ∀ u s, dlookup (dinsert acc.2 uid t) u = some s →
                    (pyFloat s).isSome = true := by
                  intro u s hlook
                  rw [dlookup_dinsert] at hlook
                  by_cases huu : uid = u
                  · rw [if_pos huu] at hlook; cases hlook; exact hpt
                  · rw [if_neg huu] at hlook; exact hacc u s hlook
                obtain ⟨counts, joins, h1, h2, h3, h4⟩ :=
                  ih (cnts', dinsert acc.2 uid t) hparse' hacc2'
                refine ⟨counts, joins, ?_, ?_, ?_, h4⟩
                · simpa [statsFold, hstep] using h1
                · intro u
                  rw [hcount_cons u]
                  have := h2 u
                  simp only at this
                  rw [this, hcount_step u]
                  omega
                · intro u
                  rw [hjoin_cons u]
                  have := h3 u
                  simp only at this
                  rw [this, dlookup_dinsert]
                  by_cases huu : uid = u
                  · subst huu
                    rw [if_pos rfl, hprev]
                    simp [joinMerge, joinMergeStep]
                  · rw [if_neg huu, if_neg huu]
              · -- previous value present: compare floats
                have hpprev : (pyFloat prev).isSome = true := hacc uid prev hprev
                obtain ⟨a, hA⟩ := Option.isSome_iff_exists.mp hpt
                obtain ⟨b, hB⟩ := Option.isSome_iff_exists.mp hpprev
                set j' := if a > b then dinsert acc.2 uid t else acc.2 with hj'
                have hstep : statsStep acc m = .ok (cnts', j') := by
                  simp only [statsStep, hu]
                  rw [if_neg huid, if_pos hjoin]
                  simp [hts', hprev, hA, hB, hcnts', hj']
                have hmerge_uid : dlookup j' uid = joinMergeStep (some prev) t := by
                  have hra : ratVal t = a := by simp [ratVal, hA]
                  have hrb : ratVal prev = b := by simp [ratVal, hB]
                  by_cases hab : a > b
                  · simp [hj', hab, dlookup_dinsert, joinMergeStep, hra, hrb]
                  · simp [hj', hab, dlookup_dinsert, joinMergeStep, hra, hrb, hprev]
                have hmerge_other : ∀ u, uid ≠ u → dlookup j' u = dlookup acc.2 u := by
                  intro u huu
                  by_cases hab : a > b
                  · simp [hj', hab, dlookup_dinsert, huu]
                  · simp [hj', hab]
                have hacc2' : ∀ u s, dlookup j' u = some s →
                    (pyFloat s).isSome = true := by
                  intro u s hlook
                  by_cases huu : uid = u
                  · subst huu
                    rw [hmerge_uid] at hlook
                    by_cases hab : ratVal t > ratVal prev
                    · simp [joinMergeStep, hab] at hlook
                      cases hlook; exact hpt
                    · simp [joinMergeStep, hab] at hlook
                      cases hlook; exact hpprev
                  · rw [hmerge_other u huu] at hlook
                    exact hacc u s hlook
                obtain ⟨counts, joins, h1, h2, h3, h4⟩ := ih (cnts', j') hparse' hacc2'
                refine ⟨counts, joins, ?_, ?_, ?_, h4⟩
                · simpa [statsFold, hstep] using h1
                · intro u
                  rw [hcount_cons u]
                  have := h2 u
                  simp only at this
                  rw [this, hcount_step u]
                  omega
                · intro u
                  rw [hjoin_cons u]
                  have := h3 u
                  simp only at this
                  rw [this]
                  by_cases huu : uid = u
                  · subst huu
                    rw [if_pos rfl, hmerge_uid, hprev]
                    rfl
                  · rw [if_neg huu, hmerge_other u huu]
          · -- join branch not taken
            have hje : isJoinEvent m = false := by
              by_contra hcon
              rw [Bool.not_eq_false] at hcon
              simp only [isJoinEvent, Bool.and_eq_true, Bool.or_eq_true, beq_iff_eq] at hcon
              exact hjoin ⟨hcon.1.1, hcon.1.2⟩
            have hstep : statsStep acc m = .ok (cnts', acc.2) := by
              simp only [statsStep, hu]
              rw [if_neg huid, if_neg hjoin, hcnts']
            have hjoin_cons : ∀ u, joinTsList (m :: rest) u = joinTsList rest u := by
              intro u
              simp [joinTsList, List.filter_cons, hje]
            obtain ⟨counts, joins, h1, h2, h3, h4⟩ := ih (cnts', acc.2) hparse' hacc
            refine ⟨counts, joins, ?_, ?_, ?_, h4⟩
            · simpa [statsFold, hstep] using h1
            · intro u
              rw [hcount_cons u]
              have := h2 u
              simp only at this
              rw [this, hcount_step u]
              omega
            · intro u
              rw [hjoin_cons u]
              have := h3 u
              simp only at this
              rw [this]

/-! ## Characterising the two emission passes -/

/-- The filter step 5 applies: drop deactivated users unless included, drop
bots unless included. -/
def keepInfo (include_bots include_deactivated : Bool) (info : UserInfo) : Bool :=
  !(info.deleted && !include_deactivated) && !(info.is_bot && !include_bots)

/-- Whether the first pass emits a row for `uid`. -/
def emitP (user_map : Dict UserInfo) (include_bots include_deactivated : Bool)
    (uid : String) : Bool :=
  match dlookup user_map uid with
  | none => false
  | some info => keepInfo include_bots include_deactivated info

/-- The identity tuple with every field absent. -/
def noInfo : UserInfo := ⟨none, none, none, false, false⟩

/-- The directory entry of `uid` (default irrelevant: only used under
`emitP`). -/
def infoOf (user_map : Dict UserInfo) (uid : String) : UserInfo :=
  (dlookup user_map uid).getD noInfo

/-- Whether the second pass emits a row for `uid`. -/
def emit2P (env : ApiEnv) (include_bots include_deactivated : Bool)
    (uid : String) : Bool :=
  match env.usersInfo uid with
  | .ok u => keepInfo include_bots include_deactivated (userInfoOfRec u)
  | .error _ => false

/-- The `users.info` record of `uid` (default irrelevant: only used under
`emit2P`). -/
def fetchedOf (env : ApiEnv) (uid : String) : UserRec :=
  match env.usersInfo uid with
  | .ok u => u
  | .error _ => noUser

theorem firstPass_eq (env : ApiEnv) (ib idf : Bool) (creator : Option String)
    (um : Dict UserInfo) (cnts : Dict Nat) (jts : Dict String) :
    ∀ ids, firstPass env ib idf creator um cnts jts ids =
      ((ids.filter (emitP um ib idf)).map
          (fun uid => mkRow env creator cnts jts uid (infoOf um uid)),
        ids.filter (fun uid => (dlookup um uid).isNone)) := by
  intro ids
  induction ids with
  | nil => rfl
  | cons uid rest ih =>
      rcases hl : dlookup um uid with _ | info
      · have he : emitP um ib idf uid = false := by simp [emitP, hl]
        have hn : (dlookup um uid).isNone = true := by simp [hl]
        simp [firstPass, hl, ih, List.filter_cons, he, hn]
      · have hn : (dlookup um uid).isNone = false := by simp [hl]
        have hi : infoOf um uid = info := by simp [infoOf, hl]
        by_cases h1 : info.deleted && !idf
        · have he : emitP um ib idf uid = false := by
            simp [emitP, hl, keepInfo, h1]
          simp [firstPass, hl, ih, List.filter_cons, he, hn, h1]
        · by_cases h2 : info.is_bot && !ib
          · have he : emitP um ib idf uid = false := by
              simp only [Bool.not_eq_true] at h1
              simp [emitP, hl, keepInfo, h1, h2]
            simp [firstPass, hl, ih, List.filter_cons, he, hn, h1, h2]
          · have he : emitP um ib idf uid = true := by
              simp only [Bool.not_eq_true] at h1 h2
              simp [emitP, hl, keepInfo, h1, h2]
            simp [firstPass, hl, ih, List.filter_cons, he, hn, h1, h2, hi]

theorem secondPass_eq (env : ApiEnv) (ib idf : Bool) (creator : Option String)
    (cnts : Dict Nat) (jts : Dict String) :
    ∀ ids,
      (∀ uid ∈ ids, (∃ u, env.usersInfo uid = .ok u) ∨
        (∃ m, env.usersInfo uid = .error (.slackApiError m))) →
      secondPass env ib idf creator cnts jts ids =
        .ok ((ids.filter (emit2P env ib idf)).map
          (fun uid => mkRow env creator cnts jts uid (userInfoOfRec (fetchedOf env uid)))) := by
  intro ids
  induction ids with
  | nil => intro _; rfl
  | cons uid rest ih =>
      intro htol
      have hrest := fun u hu => htol u (List.mem_cons_of_mem _ hu)
      rcases htol uid (List.mem_cons_self _ _) with ⟨u, hu⟩ | ⟨msg, hmsg⟩
      · have hf : fetchedOf env uid = u := by simp [fetchedOf, hu]
        by_cases h1 : (userInfoOfRec u).deleted && !idf
        · have he : emit2P env ib idf uid = false := by
            simp [emit2P, hu, keepInfo, h1]
          simp [secondPass, hu, h1, List.filter_cons, he, ih hrest]
        · by_cases h2 : (userInfoOfRec u).is_bot && !ib
          · have he : emit2P env ib idf uid = false := by
              simp only [Bool.not_eq_true] at h1
              simp [emit2P, hu, keepInfo, h1, h2]
            simp [secondPass, hu, h1, h2, List.filter_cons, he, ih hrest]
          · have he : emit2P env ib idf uid = true := by
              simp only [Bool.not_eq_true] at h1 h2
              simp [emit2P, hu, keepInfo, h1, h2]
            simp [secondPass, hu, h1, h2, List.filter_cons, he, ih hrest, hf, Except.map]
      · have he : emit2P env ib idf uid = false := by simp [emit2P, hmsg]
        simp [secondPass, hmsg, List.filter_cons, he, ih hrest]

/-! ## Success and failure shapes of the whole export -/

/-- Every per-ID `users.info` outcome is a success or a `SlackApiError` (the
kind the fallback loop catches). -/
def FallbackTolerable (env : ApiEnv) : Prop :=
  ∀ uid, (∃ u, env.usersInfo uid = .ok u) ∨
    (∃ m, env.usersInfo uid = .error (.slackApiError m))

/-- All hard (non-fallback) steps of the export succeed: credential check,
the direct channel-info call, membership pages, directory pages, and — when
scanning — the history pages together with a scan that raises no
`ValueError`. -/
def HardOk (env : ApiEnv) (scan_history : Bool) : Prop :=
  (∃ u, env.authTest = .ok u) ∧ (∃ c, env.convInfoMain = .ok c) ∧
  (∃ p, env.memberPages = .ok p) ∧ (∃ p, env.usersListPages = .ok p) ∧
  (scan_history = true → ∃ hp s, env.historyPages = .ok hp ∧
    compute_channel_stats_from_history hp.flatten = .ok s)

/-- The membership list the export computes (empty when the fetch failed —
only used under success hypotheses). -/
def exportMemberIds (env : ApiEnv) : List String :=
  match env.memberPages with
  | .ok pages => get_channel_member_ids pages
  | .error _ => []

/-- The directory the export computes. -/
def exportUserMap (env : ApiEnv) : Dict UserInfo :=
  match env.usersListPages with
  | .ok pages => build_user_email_map pages
  | .error _ => []

/-- The history aggregates the export computes. -/
def exportStats (env : ApiEnv) (scan_history : Bool) : Dict Nat × Dict String :=
  match historyStats env scan_history with
  | .ok s => s
  | .error _ => ([], [])

/-- The candidate ID list (`ordered_ids`) the export walks. -/
def exportOrderedIds (env : ApiEnv) (scan_history : Bool) : List String :=
  dedupFirstSeenLoop
    (exportMemberIds env ++
      env.setIter (exportMemberIds env ++ dkeys (exportStats env scan_history).1 ++
        dkeys (exportStats env scan_history).2)) []

theorem export_eq_of_ok (env : ApiEnv) (ib idf sh : Bool)
    (a : Unit) (c : Option String) (mp : List (List String))
    (up : List (List UserRec)) (stats : Dict Nat × Dict String)
    (hA : env.authTest = .ok a) (hC : env.convInfoMain = .ok c)
    (hM : env.memberPages = .ok mp) (hU : env.usersListPages = .ok up)
    (hH : historyStats env sh = .ok stats) :
    export_channel_metrics_rows env ib idf sh =
      aggregateRows env ib idf (get_channel_creator env) (get_channel_member_ids mp)
        (build_user_email_map up) stats.1 stats.2 := by
  unfold export_channel_metrics_rows
  rw [hA, hC, hM, hU, hH]
  rfl

theorem hardOk_of_export_ok (env : ApiEnv) (ib idf sh : Bool) (rows : List ExportRow)
    (h : export_channel_metrics_rows env ib idf sh = .ok rows) : HardOk env sh := by
  unfold export_channel_metrics_rows at h
  rcases hA : env.authTest with e | a
  all_goals rw [hA] at h
  · exact absurd h (by simp [Except.bind])
  rcases hC : env.convInfoMain with e | c
  all_goals rw [hC] at h
  · exact absurd h (by simp [Except.bind])
  rcases hM : env.memberPages with e | mp
  all_goals rw [hM] at h
  · exact absurd h (by simp [Except.bind])
  rcases hU : env.usersListPages with e | up
  all_goals rw [hU] at h
  · exact absurd h (by simp [Except.bind])
  rcases hH : historyStats env sh with e | stats
  all_goals rw [hH] at h
  · exact absurd h (by simp [Except.bind])
  refine ⟨⟨a, hA⟩, ⟨c, hC⟩, ⟨mp, hM⟩, ⟨up, hU⟩, fun hsh => ?_⟩
  subst hsh
  unfold historyStats at hH
  simp only [if_pos rfl] at hH
  rcases hP : env.historyPages with e | hp
  all_goals rw [hP] at hH
  · exact absurd hH (by simp [Except.bind])
  · exact ⟨hp, stats, rfl, by simpa [Except.bind] using hH⟩

theorem export_ok_of_hardOk (env : ApiEnv) (ib idf sh : Bool)
    (hh : HardOk env sh) (hf : FallbackTolerable env) :
    ∃ rows, export_channel_metrics_rows env ib idf sh = .ok rows := by
  obtain ⟨⟨a, hA⟩, ⟨c, hC⟩, ⟨mp, hM⟩, ⟨up, hU⟩, hhist⟩ := hh
  have hH : ∃ stats, historyStats env sh = .ok stats := by
    cases sh with
    | false => exact ⟨([], []), rfl⟩
    | true =>
        obtain ⟨hp, s, h1, h2⟩ := hhist rfl
        exact ⟨s, by simp [historyStats, h1, Except.bind, h2]⟩
  obtain ⟨stats, hH⟩ := hH
  rw [export_eq_of_ok env ib idf sh a c mp up stats hA hC hM hU hH]
  simp only [aggregateRows]
  rw [secondPass_eq env ib idf (get_channel_creator env) stats.1 stats.2 _
    (fun uid _ => hf uid)]
  exact ⟨_, rfl⟩

/-! ## Lemmas about the retry loop -/

theorem requestLoop_attempts {α : Type} (endpoint : String)
    (responses : Nat → HttpResponse α) (maxRetries : Nat) :
    ∀ remaining attempt,
      (requestLoop endpoint responses maxRetries remaining attempt).attemptsUsed ≤ remaining := by
  intro remaining
  induction remaining with
  | zero => intro attempt; simp [requestLoop]
  | succ n ih =>
      intro attempt
      cases h : responses attempt with
      | rateLimited ra =>
          simpa [requestLoop, h] using Nat.succ_le_succ (ih (attempt + 1))
      | httpError => simp [requestLoop, h]
      | body ok err data =>
          by_cases hok : ok = true
          · simp [requestLoop, h, hok]
          · by_cases htr : ((err.getD "unknown_error") = "internal_error" ∨
                (err.getD "unknown_error") = "ratelimited") ∧ attempt < maxRetries - 1
            · simpa [requestLoop, h, hok, htr] using Nat.succ_le_succ (ih (attempt + 1))
            · simp [requestLoop, h, hok, htr]

theorem requestLoop_sleeps {α : Type} (endpoint : String)
    (responses : Nat → HttpResponse α) (maxRetries : Nat) :
    ∀ remaining attempt,
      ∀ ev ∈ (requestLoop endpoint responses maxRetries remaining attempt).sleeps,
        (ev.cause = .rateLimit →
          ∃ ra, responses ev.attempt = .rateLimited ra ∧
            ev.duration = max 1 (ra.getD 1)) ∧
        (ev.cause = .backoff →
          ev.duration = 1 + (ev.attempt : Int) ∧
          ∃ err data, responses ev.attempt = .body false err data ∧
            ((err.getD "unknown_error") = "internal_error" ∨
              (err.getD "unknown_error") = "ratelimited")) := by
  intro remaining
  induction remaining with
  | zero => intro attempt ev hev; simp [requestLoop] at hev
  | succ n ih =>
      intro attempt ev hev
      cases h : responses attempt with
      | rateLimited ra =>
          rw [requestLoop] at hev
          rw [h] at hev
          simp only [List.mem_cons] at hev
          rcases hev with hev | hev
          · subst hev
            exact ⟨fun _ => ⟨ra, h, rfl⟩, fun hc => by cases hc⟩
          · exact ih (attempt + 1) ev hev
      | httpError =>
          rw [requestLoop, h] at hev
          simp at hev
      | body ok err data =>
          by_cases hok : ok = true
          · simp [requestLoop, h, hok] at hev
          · by_cases htr : ((err.getD "unknown_error") = "internal_error" ∨
                (err.getD "unknown_error") = "ratelimited") ∧ attempt < maxRetries - 1
            · simp only [requestLoop, h, hok, htr, if_true, if_false, Bool.false_eq_true,
                if_neg, List.mem_cons] at hev
              have hev' : ev = ⟨attempt, 1 + (attempt : Int), .backoff⟩ ∨
                  ev ∈ (requestLoop endpoint responses maxRetries n (attempt + 1)).sleeps := by
                simpa [requestLoop, h, hok, htr] using hev
              rcases hev' with hev' | hev'
              · subst hev'
                constructor
                · intro hc
                  exact absurd hc (by simp)
                · intro hc
                  refine ⟨rfl, err, data, ?_, htr.1⟩
                  rw [h]
                  congr 1
                  exact (Bool.not_eq_true ok).mp hok
              · exact ih (attempt + 1) ev hev'
            · simp [requestLoop, h, hok, htr] at hev

theorem requestLoop_rateLimited_exhausted {α : Type} (endpoint : String)
    (responses : Nat → HttpResponse α) (maxRetries : Nat)
    (hall : ∀ n, ∃ ra, responses n = .rateLimited ra) :
    ∀ remaining attempt,
      (requestLoop endpoint responses maxRetries remaining attempt).result =
        .error (.slackApiError (endpoint ++ " failed after retries (rate limited)")) := by
  intro remaining
  induction remaining with
  | zero => intro attempt; rfl
  | succ n ih =>
      intro attempt
      obtain ⟨ra, hra⟩ := hall attempt
      rw [requestLoop, hra]
      exact ih (attempt + 1)

/-! ## More facts about first-seen deduplication -/

theorem dedupFirstSeenLoop_append (l : List String) :
    ∀ X seen, l.Nodup → (∀ x ∈ l, x ∉ seen) →
      ∃ seen', dedupFirstSeenLoop (l ++ X) seen = l ++ dedupFirstSeenLoop X seen' ∧
        (∀ x, x ∈ seen' ↔ x ∈ l ∨ x ∈ seen) := by
  induction l with
  | nil => intro X seen _ _; exact ⟨seen, rfl, by simp⟩
  | cons a rest ih =>
      intro X seen hnd hnot
      have ha : a ∉ seen := hnot a (List.mem_cons_self _ _)
      obtain ⟨hnd1, hnd2⟩ := List.nodup_cons.mp hnd
      obtain ⟨seen', h2, h3⟩ := ih X (a :: seen) hnd2
        (fun x hx hmem => by
          rcases List.mem_cons.mp hmem with h | h
          · exact hnd1 (h ▸ hx)
          · exact hnot x (List.mem_cons_of_mem _ hx) h)
      refine ⟨seen', ?_, fun x => ?_⟩
      · have : dedupFirstSeenLoop (a :: (rest ++ X)) seen =
            a :: dedupFirstSeenLoop (rest ++ X) (a :: seen) := by
          simp [dedupFirstSeenLoop, ha]
        simpa [this] using h2
      · rw [h3 x]
        simp only [List.mem_cons]
        tauto

theorem setIterOk_dedupFirstSeenLoop : SetIterOk (fun l => dedupFirstSeenLoop l []) := by
  intro l
  refine ⟨nodup_dedupFirstSeenLoop l [], fun x => ?_⟩
  rw [mem_dedupFirstSeenLoop]
  simp

/-! ## The two failure messages of `_request_json` never coincide -/

theorem ratelimit_msg_ne_generic (endpoint : String) (code : String) :
    endpoint ++ " failed after retries (rate limited)" ≠
      endpoint ++ " failed: " ++ code := by
  intro heq
  have hd := congrArg String.data heq
  simp only [String.data_append] at hd
  rw [List.append_assoc] at hd
  have h2 := List.append_cancel_left hd
  have h3 := congrArg (fun l => List.take 9 l) h2
  simp only at h3
  rw [show (9 : Nat) = (" failed: ".data).length from rfl, List.take_left] at h3
  exact absurd h3 (by decide)

/-! ## Parsing and truncating digit strings -/

theorem char_digit_val_le (c : Char) (h : c.isDigit = true) : c.toNat - 48 ≤ 9 := by
  simp only [Char.isDigit, Bool.and_eq_true, decide_eq_true_eq] at h
  obtain ⟨h1, h2⟩ := h
  have g1 : (48 : UInt32).toNat ≤ c.val.toNat := UInt32.le_def.mp h1
  have g2 : c.val.toNat ≤ (57 : UInt32).toNat := UInt32.le_def.mp h2
  have e1 : (48 : UInt32).toNat = 48 := rfl
  have e2 : (57 : UInt32).toNat = 57 := rfl
  simp only [Char.toNat]
  omega

theorem digitsVal_lt (ds : List Char) (h : ∀ c ∈ ds, c.isDigit = true) :
    digitsVal ds < 10 ^ ds.length := by
  induction ds with
  | nil => simp [digitsVal]
  | cons c cs ih =>
      have h9 : c.toNat - 48 ≤ 9 := char_digit_val_le c (h c (List.mem_cons_self _ _))
      have hlt := ih (fun x hx => h x (List.mem_cons_of_mem _ hx))
      have hmul : (c.toNat - 48) * 10 ^ cs.length ≤ 9 * 10 ^ cs.length :=
        Nat.mul_le_mul_right _ h9
      have hpow : 10 ^ (cs.length + 1) = 10 * 10 ^ cs.length := by ring
      simp only [digitsVal, List.length_cons]
      omega

theorem takeWhile_all {α : Type} (p : α → Bool) (l : List α)
    (h : ∀ x ∈ l, p x = true) :
    l.takeWhile p = l ∧ l.dropWhile p = [] := by
  induction l with
  | nil => simp
  | cons a as ih =>
      have ha := h a (List.mem_cons_self _ _)
      have has := ih (fun x hx => h x (List.mem_cons_of_mem _ hx))
      simp [List.takeWhile_cons, List.dropWhile_cons, ha, has.1, has.2]

theorem takeWhile_append_stop {α : Type} (p : α → Bool) (l1 : List α) (c : α)
    (l2 : List α) (h1 : ∀ x ∈ l1, p x = true) (hc : p c = false) :
    (l1 ++ c :: l2).takeWhile p = l1 ∧ (l1 ++ c :: l2).dropWhile p = c :: l2 := by
  induction l1 with
  | nil => simp [List.takeWhile_cons, List.dropWhile_cons, hc]
  | cons a as ih =>
      have ha := h1 a (List.mem_cons_self _ _)
      have has := ih (fun x hx => h1 x (List.mem_cons_of_mem _ hx))
      simp [List.takeWhile_cons, List.dropWhile_cons, ha, has.1, has.2]

theorem pyFloat_digits_dot (ds fs : List Char) (hne : ds ≠ [])
    (hd : ∀ c ∈ ds, c.isDigit = true) (hf : ∀ c ∈ fs, c.isDigit = true) :
    pyFloat ⟨ds ++ '.' :: fs⟩ =
      some (Rat.divInt
        ((digitsVal ds : Int) * (10 : Int) ^ fs.length + (digitsVal fs : Int))
        ((10 : Int) ^ fs.length)) := by
  obtain ⟨d0, ds', rfl⟩ : ∃ d0 ds', ds = d0 :: ds' := by
    cases ds with
    | nil => exact absurd rfl hne
    | cons a b => exact ⟨a, b, rfl⟩
  have hd0 : d0.isDigit = true := hd d0 (List.mem_cons_self _ _)
  have hm : ¬ d0 = '-' := fun h => by rw [h] at hd0; exact absurd hd0 (by decide)
  have hp : ¬ d0 = '+' := fun h => by rw [h] at hd0; exact absurd hd0 (by decide)
  have hdot : ('.' : Char).isDigit = false := by decide
  have htake := takeWhile_append_stop Char.isDigit (d0 :: ds') '.' fs hd hdot
  have htake2 := takeWhile_all Char.isDigit fs hf
  rw [show pyFloat ⟨(d0 :: ds') ++ '.' :: fs⟩ =
      pyFloatCore ((d0 :: ds') ++ '.' :: fs) from rfl]
  rw [pyFloatCore.eq_def]
  simp only [List.cons_append, if_neg hm, if_neg hp]
  simp only [List.cons_append] at htake
  rw [htake.1, htake.2]
  simp only [if_pos rfl, htake2.1, htake2.2]
  simp [digitsVal]

theorem ratTrunc_eq_floor_of_nonneg (q : Rat) (h : 0 ≤ q) : ratTrunc q = ⌊q⌋ := by
  have hn : 0 ≤ q.num := Rat.num_nonneg.mpr h
  rw [ratTrunc, Int.tdiv_eq_ediv hn (Int.natCast_nonneg _), Rat.floor_def]

theorem ratTrunc_divInt_digits (I F k : Nat) (hF : F < 10 ^ k) :
    ratTrunc (Rat.divInt ((I : Int) * (10 : Int) ^ k + (F : Int)) ((10 : Int) ^ k)) =
      (I : Int) := by
  have hq0 : (0 : Rat) ≤
      Rat.divInt ((I : Int) * (10 : Int) ^ k + (F : Int)) ((10 : Int) ^ k) := by
    apply Rat.divInt_nonneg <;> positivity
  rw [ratTrunc_eq_floor_of_nonneg _ hq0, Rat.divInt_eq_div]
  have hcast : ((((I : Int) * (10 : Int) ^ k + (F : Int)) : Int) : Rat) /
      ((((10 : Int) ^ k) : Int) : Rat) =
      (((F + I * 10 ^ k : Nat) : Int) : Rat) / ((10 ^ k : Nat) : Rat) := by
    push_cast
    ring
  rw [hcast, Rat.floor_intCast_div_natCast]
  have h2 : ((F + I * 10 ^ k : Nat) : Int) =
      (F : Int) + (I : Int) * ((10 ^ k : Nat) : Int) := by
    push_cast; ring
  rw [h2, Int.add_mul_ediv_right _ _ (by positivity : ((10 ^ k : Nat) : Int) ≠ 0),
    Int.ediv_eq_zero_of_lt (by positivity) (by exact_mod_cast hF), zero_add]

/-! ## The claims -/

/-- Claim C7: for every sequence of membership pages (including pages with
repeated IDs), `get_channel_member_ids` returns each distinct ID exactly
once, in the order of its first occurrence across the concatenated pages:
it equals the first-occurrence subsequence of the concatenation, is
duplicate-free, has the same elements, and counts every present ID once. -/
theorem member_ids_dedup_first_seen :
    ∀ pages : List (List String),
      get_channel_member_ids pages = firstOccurrenceOrder pages.flatten ∧
      (get_channel_member_ids pages).Nodup ∧
      (∀ x, x ∈ get_channel_member_ids pages ↔ x ∈ pages.flatten) ∧
      (∀ x ∈ pages.flatten, (get_channel_member_ids pages).count x = 1) := by
  intro pages
  have h1 : get_channel_member_ids pages = firstOccurrenceOrder pages.flatten := by
    rw [get_channel_member_ids, dedupFirstSeenLoop_eq_firstOccurrenceOrder]
    congr 1
    apply List.filter_eq_self.mpr
    intro a _
    simp
  have hnd : (get_channel_member_ids pages).Nodup := nodup_dedupFirstSeenLoop _ _
  have hmem : ∀ x, x ∈ get_channel_member_ids pages ↔ x ∈ pages.flatten := by
    intro x
    rw [get_channel_member_ids, mem_dedupFirstSeenLoop]
    simp
  exact ⟨h1, hnd, hmem, fun x hx => List.count_eq_one_of_mem hnd ((hmem x).mpr hx)⟩

/-- Claim C8: for every sequence of responses, the retry loop of
`_request_json` (default budget 8) terminates after at most 8 attempts,
either returning a successful body or raising; every rate-limit sleep lasts
`max 1 retryAfter` — at least the server-suggested wait, defaulting to 1
when the header is absent — and every transient-error backoff sleep lasts
exactly `1 + attempt` time units and follows an `ok:false` body with an
`internal_error`/`ratelimited` code. -/
theorem request_json_attempt_budget (α : Type) (endpoint : String)
    (responses : Nat → HttpResponse α) :
    (_request_json endpoint responses).attemptsUsed ≤ 8 ∧
    ((∃ a, (_request_json endpoint responses).result = .ok a) ∨
      (∃ e, (_request_json endpoint responses).result = .error e)) ∧
    (∀ ev ∈ (_request_json endpoint responses).sleeps,
      (ev.cause = SleepCause.rateLimit →
        ∃ ra, responses ev.attempt = HttpResponse.rateLimited ra ∧
          ev.duration = max 1 (ra.getD 1) ∧ ra.getD 1 ≤ ev.duration) ∧
      (ev.cause = SleepCause.backoff →
        ev.duration = 1 + (ev.attempt : Int) ∧
        ∃ err data, responses ev.attempt = HttpResponse.body false err data ∧
          ((err.getD "unknown_error") = "internal_error" ∨
            (err.getD "unknown_error") = "ratelimited"))) := by
  refine ⟨requestLoop_attempts endpoint responses 8 8 0, ?_, ?_⟩
  · cases h : (_request_json endpoint responses).result with
    | ok a => exact Or.inl ⟨a, rfl⟩
    | error e => exact Or.inr ⟨e, rfl⟩
  · intro ev hev
    have h := requestLoop_sleeps endpoint responses 8 8 0 ev hev
    refine ⟨fun hc => ?_, h.2⟩
    obtain ⟨ra, h1, h2⟩ := h.1 hc
    exact ⟨ra, h1, h2, h2 ▸ le_max_right _ _⟩

/-- Claim C5 counterexample: exhausting the budget on HTTP 429 responses
raises `SlackApiError` — the same exception class as a generic in-body
failure — so no distinct rate-limit-exhausted failure kind exists; the two
outcomes differ only in the message string. -/
theorem rate_limit_exhausted_same_class_cex :
    (_request_json "conversations.members"
        (fun _ => (HttpResponse.rateLimited none : HttpResponse Unit))).result =
      .error (.slackApiError
        "conversations.members failed after retries (rate limited)") ∧
    (_request_json "conversations.members"
        (fun _ => (HttpResponse.body false (some "channel_not_found") () :
          HttpResponse Unit))).result =
      .error (.slackApiError "conversations.members failed: channel_not_found") := by
  exact ⟨rfl, rfl⟩

/-- Claim C5 (amended): when the retry budget is exhausted while
rate-limited, `_request_json` raises `SlackApiError` — the same exception
class as other remote failures, not a distinct kind — whose message
`"<endpoint> failed after retries (rate limited)"` differs from every
generic failure message `"<endpoint> failed: <code>"`, so the case is
distinguishable only by message text. -/
theorem rate_limit_exhausted_same_class_amended (α : Type) (endpoint : String)
    (responses : Nat → HttpResponse α)
    (hall : ∀ n, ∃ ra, responses n = HttpResponse.rateLimited ra) :
    (_request_json endpoint responses).result =
      .error (.slackApiError (endpoint ++ " failed after retries (rate limited)")) ∧
    ∀ code, endpoint ++ " failed after retries (rate limited)" ≠
      endpoint ++ " failed: " ++ code :=
  ⟨requestLoop_rateLimited_exhausted endpoint responses 8 hall 8 0,
    fun code => ratelimit_msg_ne_generic endpoint code⟩

/-- Witness for the amended claim C5 at a concrete all-429 response
sequence. -/
theorem rate_limit_exhausted_same_class_amended_witness :
    (_request_json "auth.test"
        (fun _ => (HttpResponse.rateLimited (some 2) : HttpResponse Unit))).result =
      .error (.slackApiError ("auth.test" ++ " failed after retries (rate limited)")) ∧
    ∀ code, "auth.test" ++ " failed after retries (rate limited)" ≠
      "auth.test" ++ " failed: " ++ code :=
  rate_limit_exhausted_same_class_amended Unit "auth.test"
    (fun _ => (HttpResponse.rateLimited (some 2) : HttpResponse Unit))
    (fun _ => ⟨some 2, rfl⟩)

/-- Claim C9: `slack_ts_to_unix_seconds` renders a digits-dot-digits
fractional-epoch string as the decimal integer obtained by truncation (the
integer-part digits; e.g. `"100.5"` renders as `"100"`), renders every
absent or unparsable value as `""` without error, and in general renders a
parsable value as `str(int(float(ts)))`. -/
theorem joined_at_truncation_rendering :
    (∀ ds fs : List Char, ds ≠ [] → (∀ c ∈ ds, c.isDigit = true) →
      (∀ c ∈ fs, c.isDigit = true) →
      slack_ts_to_unix_seconds (some ⟨ds ++ '.' :: fs⟩) =
        toString ((digitsVal ds : Int))) ∧
    (∀ s : String, pyFloat s = none → slack_ts_to_unix_seconds (some s) = "") ∧
    (∀ s q, pyFloat s = some q →
      slack_ts_to_unix_seconds (some s) = toString (ratTrunc q)) ∧
    slack_ts_to_unix_seconds none = "" ∧
    slack_ts_to_unix_seconds (some "100.5") = "100" := by
  have h3 : ∀ s q, pyFloat s = some q →
      slack_ts_to_unix_seconds (some s) = toString (ratTrunc q) := by
    intro s q hq
    have hs : ¬ s = "" := by
      intro h
      rw [h] at hq
      exact absurd hq (by rw [show pyFloat "" = none from rfl]; simp)
    simp [slack_ts_to_unix_seconds, hs, hq]
  have h2 : ∀ s : String, pyFloat s = none →
      slack_ts_to_unix_seconds (some s) = "" := by
    intro s hq
    by_cases hs : s = ""
    · simp [slack_ts_to_unix_seconds, hs]
    · simp [slack_ts_to_unix_seconds, hs, hq]
  refine ⟨?_, h2, h3, rfl, by rfl⟩
  intro ds fs hne hd hf
  rw [h3 _ _ (pyFloat_digits_dot ds fs hne hd hf),
    ratTrunc_divInt_digits (digitsVal ds) (digitsVal fs) fs.length (digitsVal_lt fs hf)]

theorem string_foldl_append (l : List String) :
    ∀ a : String, l.foldl (· ++ ·) a = a ++ l.foldl (· ++ ·) "" := by
  induction l with
  | nil => intro a; simp
  | cons x xs ih =>
      intro a
      simp only [List.foldl_cons]
      rw [ih (a ++ x), ih ("" ++ x)]
      simp [String.append_assoc]

theorem string_join_cons (a : String) (l : List String) :
    String.join (a :: l) = a ++ String.join l := by
  simp only [String.join, List.foldl_cons]
  rw [string_foldl_append]
  simp

/-- The output buffer accumulated by the writer loop is the header followed
by the records, in order. -/
theorem rows_to_csv_foldl (rows : List (Dict String)) :
    ∀ init : String,
      rows.foldl (fun buf row => buf ++ csvRecordLine
        (CSV_FIELDNAMES.map fun k => (dlookup row k).getD "")) init =
      init ++ String.join (rows.map fun row => csvRecordLine
        (CSV_FIELDNAMES.map fun k => (dlookup row k).getD "")) := by
  induction rows with
  | nil => intro init; simp [String.join]
  | cons r rs ih =>
      intro init
      simp only [List.foldl_cons, List.map_cons]
      rw [ih, string_join_cons, ← String.append_assoc]

/-- Claim C10: `rows_to_csv_bytes` is total over arbitrary row dicts: the
output is the fixed seven-column header record followed by exactly one
record per input row in input order; a schema key missing from a row
renders as the empty field, and keys outside the schema never influence a
record. -/
theorem rows_to_csv_total_fixed_schema :
    (∀ rows : List (Dict String),
      rows_to_csv_bytes rows =
        csvRecordLine CSV_FIELDNAMES ++
          String.join (rows.map fun row =>
            csvRecordLine (CSV_FIELDNAMES.map fun k => (dlookup row k).getD ""))) ∧
    (∀ rows : List (Dict String),
      (rows.map fun row =>
        csvRecordLine (CSV_FIELDNAMES.map fun k => (dlookup row k).getD "")).length =
        rows.length) ∧
    (∀ row : Dict String, ∀ k, k ∉ dkeys row → (dlookup row k).getD "" = "") ∧
    (∀ r1 r2 : Dict String,
      (∀ k ∈ CSV_FIELDNAMES, dlookup r1 k = dlookup r2 k) →
      csvRecordLine (CSV_FIELDNAMES.map fun k => (dlookup r1 k).getD "") =
        csvRecordLine (CSV_FIELDNAMES.map fun k => (dlookup r2 k).getD "")) := by
  refine ⟨fun rows => rows_to_csv_foldl rows _, fun rows => by simp, ?_, ?_⟩
  · intro row k hk
    rw [dlookup_eq_none_of_not_mem_dkeys row k hk]
    rfl
  · intro r1 r2 h
    congr 1
    exact List.map_congr_left fun k hk => by rw [h k hk]

/-- Claim C3 counterexample: a history of two join-subtype messages for the
same user whose timestamps are not numerically parsable makes the scan raise
`ValueError` (from `float(ts) > float(prev)`), so a subtyped message shape
can raise an error, contrary to the claim. -/
theorem join_unparsable_ts_raises_cex :
    compute_channel_stats_from_history
      [⟨some "message", some "U1", some "abc", some "channel_join"⟩,
        ⟨some "message", some "U1", some "xyz", some "channel_join"⟩] =
      .error .valueError := by rfl

/-- Claim C3 (amended): `messageCount[u]` counts exactly the messages with
`type == "message"`, a truthy user ID and no subtype — every other message
shape contributes nothing — and the scan raises no error provided every
join-event timestamp is numerically parsable (an unparsable join timestamp
compared against a stored one raises `ValueError`). -/
theorem message_count_classification_amended (msgs : List Message)
    (hparse : ∀ m ∈ msgs, isJoinEvent m = true →
      (pyFloat (m.ts.getD "")).isSome = true) :
    ∃ counts joins, compute_channel_stats_from_history msgs = .ok (counts, joins) ∧
      ∀ u, (dlookup counts u).getD 0 = countableCount msgs u := by
  obtain ⟨counts, joins, h1, h2, _, _⟩ :=
    statsFold_char msgs ([], []) hparse (by intro u t h; simp [dlookup] at h)
  exact ⟨counts, joins, h1, fun u => by simpa [dlookup] using h2 u⟩

/-- Witness for the amended claim C3 on a small concrete history. -/
theorem message_count_classification_amended_witness :
    ∃ counts joins, compute_channel_stats_from_history
        [⟨some "message", some "U1", some "10.5", none⟩,
          ⟨some "message", some "U2", some "100.5", some "channel_join"⟩,
          ⟨some "message", none, some "11.0", none⟩] = .ok (counts, joins) ∧
      ∀ u, (dlookup counts u).getD 0 = countableCount
        [⟨some "message", some "U1", some "10.5", none⟩,
          ⟨some "message", some "U2", some "100.5", some "channel_join"⟩,
          ⟨some "message", none, some "11.0", none⟩] u :=
  message_count_classification_amended _ (by decide)

/-- Claim C4: when every join-event timestamp in the window parses, the scan
succeeds and `lastJoinTimestamp[u]` is exactly a numerically maximum element
of `u`'s join-event timestamps (present iff `u` has a join event): an update
happens only on a strictly greater value, so a later join event with a
smaller timestamp never lowers the stored value. -/
theorem last_join_timestamp_monotonic_max (msgs : List Message)
    (hparse : ∀ m ∈ msgs, isJoinEvent m = true →
      (pyFloat (m.ts.getD "")).isSome = true) :
    ∃ counts joins, compute_channel_stats_from_history msgs = .ok (counts, joins) ∧
      ∀ u, (dlookup joins u = none ↔ joinTsList msgs u = []) ∧
        ∀ t, dlookup joins u = some t →
          t ∈ joinTsList msgs u ∧ ∀ s ∈ joinTsList msgs u, ratVal s ≤ ratVal t := by
  obtain ⟨counts, joins, h1, _, h3, _⟩ :=
    statsFold_char msgs ([], []) hparse (by intro u t h; simp [dlookup] at h)
  refine ⟨counts, joins, h1, fun u => ⟨?_, ?_⟩⟩
  · have h := h3 u
    simp only [dlookup] at h
    rw [h, joinMerge_eq_none]
    simp
  · intro t ht
    have h := h3 u
    simp only [dlookup] at h
    rw [h] at ht
    obtain ⟨hmem, hall, _⟩ := joinMerge_max (joinTsList msgs u) none t ht
    rcases hmem with h' | h'
    · exact ⟨h', hall⟩
    · cases h'

/-- Witness for claim C4: a join at 100.5 followed by a later-scanned join at
50.0 for the same user. -/
theorem last_join_timestamp_monotonic_max_witness :
    ∃ counts joins, compute_channel_stats_from_history
        [⟨some "message", some "U2", some "100.5", some "channel_join"⟩,
          ⟨some "message", some "U2", some "50.0", some "group_join"⟩] =
        .ok (counts, joins) ∧
      ∀ u, (dlookup joins u = none ↔ joinTsList
          [⟨some "message", some "U2", some "100.5", some "channel_join"⟩,
            ⟨some "message", some "U2", some "50.0", some "group_join"⟩] u = []) ∧
        ∀ t, dlookup joins u = some t →
          t ∈ joinTsList
            [⟨some "message", some "U2", some "100.5", some "channel_join"⟩,
              ⟨some "message", some "U2", some "50.0", some "group_join"⟩] u ∧
          ∀ s ∈ joinTsList
            [⟨some "message", some "U2", some "100.5", some "channel_join"⟩,
              ⟨some "message", some "U2", some "50.0", some "group_join"⟩] u,
            ratVal s ≤ ratVal t :=
  last_join_timestamp_monotonic_max _ (by decide)

/-- Whenever the second pass returns rows, their IDs are a subsequence of the
IDs it was given and each had a successful `users.info` outcome. -/
theorem secondPass_ok_chars (env : ApiEnv) (ib idf : Bool) (creator : Option String)
    (cnts : Dict Nat) (jts : Dict String) :
    ∀ ids rows2, secondPass env ib idf creator cnts jts ids = .ok rows2 →
      (rows2.map ExportRow.user_id).Sublist ids ∧
      (∀ uid ∈ rows2.map ExportRow.user_id, ∃ u, env.usersInfo uid = .ok u) := by
  intro ids
  induction ids with
  | nil =>
      intro rows2 h
      simp only [secondPass] at h
      injection h with h2
      subst h2
      simp
  | cons uid rest ih =>
      intro rows2 h
      rcases hu : env.usersInfo uid with e | u
      · rcases e with m | _ | _
        · simp only [secondPass, hu] at h
          obtain ⟨h1, h2⟩ := ih rows2 h
          exact ⟨h1.cons uid, h2⟩
        · simp only [secondPass, hu] at h
          exact absurd h (by simp)
        · simp only [secondPass, hu] at h
          exact absurd h (by simp)
      · simp only [secondPass, hu] at h
        by_cases h1 : (userInfoOfRec u).deleted && !idf
        · rw [if_pos h1] at h
          obtain ⟨hs1, hs2⟩ := ih rows2 h
          exact ⟨hs1.cons uid, hs2⟩
        · rw [if_neg h1] at h
          by_cases h2 : (userInfoOfRec u).is_bot && !ib
          · rw [if_pos h2] at h
            obtain ⟨hs1, hs2⟩ := ih rows2 h
            exact ⟨hs1.cons uid, hs2⟩
          · rw [if_neg h2] at h
            rcases hsp : secondPass env ib idf creator cnts jts rest with e | rows2'
            · rw [hsp] at h
              simp [Except.map] at h
            · rw [hsp] at h
              simp only [Except.map] at h
              injection h with h3
              subst h3
              obtain ⟨hs1, hs2⟩ := ih rows2' hsp
              constructor
              · simpa [mkRow] using hs1.cons₂ uid
              · intro uid' hmem
                simp only [List.map_cons, List.mem_cons, mkRow] at hmem
                rcases hmem with h' | h'
                · exact ⟨u, h' ▸ hu⟩
                · exact hs2 uid' h'

/-- The concrete environment refuting claim C1: every endpoint succeeds
except `conversations.info`, which deterministically fails (e.g. the channel
was deleted between retries) at both of its call sites. -/
def envCreatorCex : ApiEnv :=
  { authTest := .ok ()
    convInfoMain := .error (.slackApiError "conversations.info failed: channel_not_found")
    convInfoCreator := .error (.slackApiError "conversations.info failed: channel_not_found")
    memberPages := .ok [["U1"]]
    usersListPages := .ok [[⟨some "U1", some "a@x.com", some "Ann", none, some "ann",
      some "ann.l", false, false, false, false, false⟩]]
    historyPages := .ok []
    usersInfo := fun _ => .ok ⟨some "U1", some "a@x.com", some "Ann", none, some "ann",
      some "ann.l", false, false, false, false, false⟩
    setIter := fun l => dedupFirstSeenLoop l [] }

/-- Claim C1 counterexample: with the channel-info lookup failing, the export
aborts with that failure instead of completing — because the export performs
a direct unguarded `conversations_info` call (line 315, result unused) before
the guarded `get_channel_creator`. -/
theorem creator_info_failure_aborts_cex :
    export_channel_metrics_rows envCreatorCex false false true =
      .error (.slackApiError "conversations.info failed: channel_not_found") := by
  rfl

/-- Claim C1 (amended): creator resolution itself is best-effort — when the
`conversations_info` call inside `get_channel_creator` fails or the creator
field is absent, an export whose hard steps succeed still completes and no
row is classified `"Channel Creator"` — but the separate unguarded
channel-info call at the top of the export aborts on failure. -/
theorem creator_resolution_best_effort_amended (env : ApiEnv) (ib idf sh : Bool)
    (hhard : HardOk env sh) (hfb : FallbackTolerable env)
    (hcre : env.convInfoCreator = .ok none ∨ ∃ e, env.convInfoCreator = .error e) :
    ∃ rows, export_channel_metrics_rows env ib idf sh = .ok rows ∧
      ∀ r ∈ rows, r.role ≠ "Channel Creator" := by
  have hc : get_channel_creator env = none := by
    rcases hcre with h | ⟨e, h⟩ <;> simp [get_channel_creator, h]
  have hrole : ∀ uid info cnts jts,
      (mkRow env (get_channel_creator env) cnts jts uid info).role ≠ "Channel Creator" := by
    intro uid info cnts jts
    show get_user_role env.usersInfo uid (get_channel_creator env) ≠ "Channel Creator"
    rw [hc, get_user_role]
    split
    · decide
    · decide
  obtain ⟨⟨a, hA⟩, ⟨c, hC⟩, ⟨mp, hM⟩, ⟨up, hU⟩, hhist⟩ := hhard
  have hH : ∃ stats, historyStats env sh = .ok stats := by
    cases sh with
    | false => exact ⟨([], []), rfl⟩
    | true =>
        obtain ⟨hp, s, h1, h2⟩ := hhist rfl
        exact ⟨s, by simp [historyStats, h1, Except.bind, h2]⟩
  obtain ⟨stats, hH⟩ := hH
  rw [export_eq_of_ok env ib idf sh a c mp up stats hA hC hM hU hH]
  simp only [aggregateRows]
  rw [firstPass_eq, secondPass_eq env ib idf (get_channel_creator env) stats.1 stats.2 _
    (fun uid _ => hfb uid)]
  refine ⟨_, rfl, ?_⟩
  intro r hr
  rcases List.mem_append.mp hr with h | h
  · obtain ⟨uid, _, rfl⟩ := List.mem_map.mp h
    exact hrole uid _ _ _
  · obtain ⟨uid, _, rfl⟩ := List.mem_map.mp h
    exact hrole uid _ _ _

/-- The concrete environment of the witness for the amended claim C1: the
creator-resolution call fails, everything else succeeds. -/
def envCreatorOk : ApiEnv :=
  { authTest := .ok ()
    convInfoMain := .ok (some "U9")
    convInfoCreator := .error (.slackApiError "conversations.info failed: internal_error")
    memberPages := .ok [["U1"]]
    usersListPages := .ok [[⟨some "U1", some "a@x.com", some "Ann", none, some "ann",
      some "ann.l", false, false, false, false, false⟩]]
    historyPages := .ok []
    usersInfo := fun _ => .ok ⟨some "U1", some "a@x.com", some "Ann", none, some "ann",
      some "ann.l", false, false, false, false, false⟩
    setIter := fun l => dedupFirstSeenLoop l [] }

/-- Witness for the amended claim C1 at `envCreatorOk`. -/
theorem creator_resolution_best_effort_amended_witness :
    ∃ rows, export_channel_metrics_rows envCreatorOk false false false = .ok rows ∧
      ∀ r ∈ rows, r.role ≠ "Channel Creator" :=
  creator_resolution_best_effort_amended envCreatorOk false false false
    ⟨⟨(), rfl⟩, ⟨some "U9", rfl⟩, ⟨[["U1"]], rfl⟩,
      ⟨[[⟨some "U1", some "a@x.com", some "Ann", none, some "ann",
        some "ann.l", false, false, false, false, false⟩]], rfl⟩,
      fun h => by cases h⟩
    (fun uid => Or.inl ⟨⟨some "U1", some "a@x.com", some "Ann", none, some "ann",
      some "ann.l", false, false, false, false, false⟩, rfl⟩)
    (Or.inr ⟨.slackApiError "conversations.info failed: internal_error", rfl⟩)

theorem exceptMap_ok_iff {ε α β : Type} (f : α → β) (x : Except ε α) (y : β) :
    x.map f = .ok y ↔ ∃ a, x = .ok a ∧ f a = y := by
  cases x <;> simp [Except.map]

/-- The concrete environment refuting claim C2: all bulk steps succeed, the
only channel member is absent from the directory, and its fallback
`users.info` call fails with a transport-level HTTP status error — which
`except SlackApiError` does not catch. -/
def envFallbackCex : ApiEnv :=
  { authTest := .ok ()
    convInfoMain := .ok none
    convInfoCreator := .ok none
    memberPages := .ok [["U1"]]
    usersListPages := .ok []
    historyPages := .ok []
    usersInfo := fun _ => .error .httpStatusError
    setIter := fun l => dedupFirstSeenLoop l [] }

/-- Claim C2 counterexample: a transport-level failure of an individual
fallback identity lookup aborts the whole export instead of skipping that
ID. -/
theorem fallback_transport_failure_aborts_cex :
    export_channel_metrics_rows envFallbackCex false false false =
      .error .httpStatusError := by rfl

/-- Claim C2 (amended): the export returns rows only when every hard step
(credential validation, channel-info call, membership fetch, directory
build, history scan) succeeded; when they succeed and every fallback
`users.info` outcome is a success or a `SlackApiError`, the export returns a
complete row sequence; and a missing-from-directory ID whose fallback lookup
fails with `SlackApiError` is silently skipped — only a transport-level
(non-`SlackApiError`) fallback failure can abort after the hard steps. -/
theorem export_atomicity_amended (env : ApiEnv) (ib idf sh : Bool) :
    ((∃ rows, export_channel_metrics_rows env ib idf sh = .ok rows) →
      HardOk env sh) ∧
    (HardOk env sh → FallbackTolerable env →
      ∃ rows, export_channel_metrics_rows env ib idf sh = .ok rows) ∧
    (∀ uid rows, export_channel_metrics_rows env ib idf sh = .ok rows →
      dlookup (exportUserMap env) uid = none →
      (∃ m, env.usersInfo uid = .error (.slackApiError m)) →
      uid ∉ rows.map ExportRow.user_id) := by
  refine ⟨fun ⟨rows, h⟩ => hardOk_of_export_ok env ib idf sh rows h,
    fun hh hf => export_ok_of_hardOk env ib idf sh hh hf, ?_⟩
  intro uid rows h hlook hfail
  obtain ⟨⟨a, hA⟩, ⟨c, hC⟩, ⟨mp, hM⟩, ⟨up, hU⟩, hhist⟩ :=
    hardOk_of_export_ok env ib idf sh rows h
  have hH : ∃ stats, historyStats env sh = .ok stats := by
    cases sh with
    | false => exact ⟨([], []), rfl⟩
    | true =>
        obtain ⟨hp, s, h1, h2⟩ := hhist rfl
        exact ⟨s, by simp [historyStats, h1, Except.bind, h2]⟩
  obtain ⟨stats, hH⟩ := hH
  rw [export_eq_of_ok env ib idf sh a c mp up stats hA hC hM hU hH] at h
  simp only [aggregateRows] at h
  rw [firstPass_eq] at h
  obtain ⟨rows2, hsp, hrows⟩ := (exceptMap_ok_iff _ _ _).mp h
  intro hmem
  rw [← hrows] at hmem
  simp only [List.map_append, List.mem_append] at hmem
  rcases hmem with hm | hm
  · rw [List.map_map] at hm
    obtain ⟨uid', hmem', heq⟩ := List.mem_map.mp hm
    simp only [Function.comp, mkRow] at heq
    subst heq
    have hemit := (List.mem_filter.mp hmem').2
    rw [show exportUserMap env = build_user_email_map up by
      simp [exportUserMap, hU]] at hlook
    simp only [emitP, hlook] at hemit
    exact Bool.false_ne_true hemit
  · obtain ⟨u', hok'⟩ :=
      (secondPass_ok_chars env ib idf _ stats.1 stats.2 _ rows2 hsp).2 uid hm
    obtain ⟨m, hm'⟩ := hfail
    rw [hok'] at hm'
    cases hm'

/-- Claim C6: every ID in the returned row set is an element of the channel
membership or of the keys of the history aggregates (message counts or join
timestamps) — never of the workspace directory alone; each ID appears at
most once among the rows; and the candidate list the export walks is the
membership first, followed only by IDs not in the membership. -/
theorem row_ids_from_membership_or_history (env : ApiEnv) (ib idf sh : Bool)
    (rows : List ExportRow) (hset : SetIterOk env.setIter)
    (hok : export_channel_metrics_rows env ib idf sh = .ok rows) :
    (∀ r ∈ rows, r.user_id ∈ exportMemberIds env ∨
      r.user_id ∈ dkeys (exportStats env sh).1 ∨
      r.user_id ∈ dkeys (exportStats env sh).2) ∧
    (rows.map ExportRow.user_id).Nodup ∧
    (∃ extra, exportOrderedIds env sh = exportMemberIds env ++ extra ∧
      ∀ x ∈ extra, x ∉ exportMemberIds env) := by
  obtain ⟨⟨a, hA⟩, ⟨c, hC⟩, ⟨mp, hM⟩, ⟨up, hU⟩, hhist⟩ :=
    hardOk_of_export_ok env ib idf sh rows hok
  have hH : ∃ stats, historyStats env sh = .ok stats := by
    cases sh with
    | false => exact ⟨([], []), rfl⟩
    | true =>
        obtain ⟨hp, s, h1, h2⟩ := hhist rfl
        exact ⟨s, by simp [historyStats, h1, Except.bind, h2]⟩
  obtain ⟨stats, hH⟩ := hH
  have hMI : exportMemberIds env = get_channel_member_ids mp := by
    simp [exportMemberIds, hM]
  have hST : exportStats env sh = stats := by simp [exportStats, hH]
  have hnodupM : (get_channel_member_ids mp).Nodup := nodup_dedupFirstSeenLoop _ _
  obtain ⟨seen', hsplit, hseen⟩ := dedupFirstSeenLoop_append (get_channel_member_ids mp)
    (env.setIter (get_channel_member_ids mp ++ dkeys stats.1 ++ dkeys stats.2)) []
    hnodupM (by simp)
  have hc3 : ∃ extra, exportOrderedIds env sh = exportMemberIds env ++ extra ∧
      ∀ x ∈ extra, x ∉ exportMemberIds env := by
    refine ⟨dedupFirstSeenLoop (env.setIter (get_channel_member_ids mp ++
      dkeys stats.1 ++ dkeys stats.2)) seen', ?_, ?_⟩
    · rw [exportOrderedIds, hMI, hST]
      exact hsplit
    · intro x hx hmemM
      rw [hMI] at hmemM
      exact ((mem_dedupFirstSeenLoop _ _ _).mp hx).2 ((hseen x).mpr (Or.inl hmemM))
  rw [export_eq_of_ok env ib idf sh a c mp up stats hA hC hM hU hH] at hok
  simp only [aggregateRows] at hok
  rw [firstPass_eq] at hok
  obtain ⟨rows2, hsp, hrows⟩ := (exceptMap_ok_iff _ _ _).mp hok
  obtain ⟨hsub2, _⟩ := secondPass_ok_chars env ib idf _ stats.1 stats.2 _ rows2 hsp
  subst hrows
  have hnodupO : (dedupFirstSeenLoop (get_channel_member_ids mp ++
      env.setIter (get_channel_member_ids mp ++ dkeys stats.1 ++ dkeys stats.2))
      []).Nodup := nodup_dedupFirstSeenLoop _ _
  have hmemO : ∀ x, x ∈ dedupFirstSeenLoop (get_channel_member_ids mp ++
      env.setIter (get_channel_member_ids mp ++ dkeys stats.1 ++ dkeys stats.2)) [] →
      x ∈ get_channel_member_ids mp ∨ x ∈ dkeys stats.1 ∨ x ∈ dkeys stats.2 := by
    intro x hx
    have h1 := ((mem_dedupFirstSeenLoop _ _ _).mp hx).1
    rcases List.mem_append.mp h1 with h2 | h2
    · exact Or.inl h2
    · have h3 := ((hset _).2 x).mp h2
      rcases List.mem_append.mp h3 with h4 | h4
      · rcases List.mem_append.mp h4 with h5 | h5
        · exact Or.inl h5
        · exact Or.inr (Or.inl h5)
      · exact Or.inr (Or.inr h4)
  have hmap1 : ∀ l : List String,
      (l.map (fun uid => mkRow env (get_channel_creator env) stats.1 stats.2 uid
        (infoOf (build_user_email_map up) uid))).map ExportRow.user_id = l := by
    intro l
    rw [List.map_map]
    have hcomp : (ExportRow.user_id ∘ fun uid => mkRow env (get_channel_creator env)
        stats.1 stats.2 uid (infoOf (build_user_email_map up) uid)) = id := by
      funext uid
      rfl
    rw [hcomp, List.map_id]
  refine ⟨?_, ?_, hc3⟩
  · intro r hr
    rw [hMI, hST]
    rcases List.mem_append.mp hr with hm | hm
    · obtain ⟨uid, hmem', rfl⟩ := List.mem_map.mp hm
      have huid := (List.mem_filter.mp hmem').1
      exact hmemO uid huid
    · have huid : r.user_id ∈ rows2.map ExportRow.user_id :=
        List.mem_map.mpr ⟨r, hm, rfl⟩
      have h2 := hsub2.subset huid
      have h3 := (List.mem_filter.mp h2).1
      exact hmemO r.user_id h3
  · rw [List.map_append, hmap1]
    have hnd1 : (List.filter (emitP (build_user_email_map up) ib idf)
        (dedupFirstSeenLoop (get_channel_member_ids mp ++
          env.setIter (get_channel_member_ids mp ++ dkeys stats.1 ++ dkeys stats.2))
          [])).Nodup := hnodupO.filter _
    have hnd2 : (rows2.map ExportRow.user_id).Nodup :=
      hsub2.nodup (hnodupO.filter _)
    refine hnd1.append hnd2 ?_
    intro x hx1 hx2
    have he1 := (List.mem_filter.mp hx1).2
    have he2 := (List.mem_filter.mp (hsub2.subset hx2)).2
    rw [Option.isNone_iff_eq_none] at he2
    simp only [emitP, he2] at he1
    exact Bool.false_ne_true he1

/-- The concrete environment of the witness for claim C6: one member,
present in the directory, no history scan. -/
def envRowsWitness : ApiEnv :=
  { authTest := .ok ()
    convInfoMain := .ok (some "U9")
    convInfoCreator := .ok (some "U9")
    memberPages := .ok [["U1"]]
    usersListPages := .ok [[⟨some "U1", some "a@x.com", some "Ann", none, some "ann",
      some "ann.l", false, false, false, false, false⟩]]
    historyPages := .ok []
    usersInfo := fun _ => .ok ⟨some "U1", some "a@x.com", some "Ann", none, some "ann",
      some "ann.l", false, false, false, false, false⟩
    setIter := fun l => dedupFirstSeenLoop l [] }

/-- The single row the export produces on `envRowsWitness`. -/
def rowU1 : ExportRow :=
  { user_id := "U1", email := "a@x.com", display_name := "ann", real_name := "Ann"
    role := "Member", message_count := "0", joined_at := "" }

/-- Witness for claim C6 at `envRowsWitness`. -/
theorem row_ids_from_membership_or_history_witness :
    (∀ r ∈ [rowU1], r.user_id ∈ exportMemberIds envRowsWitness ∨
      r.user_id ∈ dkeys (exportStats envRowsWitness false).1 ∨
      r.user_id ∈ dkeys (exportStats envRowsWitness false).2) ∧
    (([rowU1].map ExportRow.user_id)).Nodup ∧
    (∃ extra, exportOrderedIds envRowsWitness false =
        exportMemberIds envRowsWitness ++ extra ∧
      ∀ x ∈ extra, x ∉ exportMemberIds envRowsWitness) :=
  row_ids_from_membership_or_history envRowsWitness false false false [rowU1]
    setIterOk_dedupFirstSeenLoop (by rfl)

end SlackExporter
